import Mathlib

/-!
# The chat relay server (`server/server.js`)

A shallow embedding of the `/api/chat` route and of `getStockPrice`.

* A JavaScript string is a list of characters.
* `String.prototype.toLowerCase` and `toUpperCase` belong to the runtime, not to the
  program: the handler is parametric in them (`CaseMapping`), and the three
  facts about them that the proofs use are fields of that structure.
  `asciiCase` is a concrete instance.
* A JavaScript number is observed by the program only through its truthiness
  and through `toFixed(2)`; `JSNumber` records these two observations.
* The remote services (`yahooFinance.quote`, the Gemini chat session) and the
  clock are fields of `Env`. Every call made to a remote service is appended
  to a trace, returned next to the HTTP response.
-/

namespace Chatbot

/-- A JavaScript string. -/
abbrev Str := List Char

/-! ## String primitives -/

/-- The characters removed by `String.prototype.trim`: ECMAScript `WhiteSpace`
and `LineTerminator`. -/
def isWhiteSpace (c : Char) : Bool :=
  c.toNat == 0x09 || c.toNat == 0x0A || c.toNat == 0x0B || c.toNat == 0x0C ||
  c.toNat == 0x0D || c.toNat == 0x20 || c.toNat == 0xA0 || c.toNat == 0x1680 ||
  (0x2000 ≤ c.toNat && c.toNat ≤ 0x200A) || c.toNat == 0x2028 ||
  c.toNat == 0x2029 || c.toNat == 0x202F || c.toNat == 0x205F ||
  c.toNat == 0x3000 || c.toNat == 0xFEFF

/-- The method `s.trim()`. -/
def trim (s : Str) : Str :=
  ((s.dropWhile isWhiteSpace).reverse.dropWhile isWhiteSpace).reverse

/-- The method `s.split(sep)` for a separator of one character. The result is never
empty: `"".split(" ")` is `[""]`. -/
def split (sep : Char) : Str → List Str
  | [] => [[]]
  | c :: cs =>
    if c = sep then [] :: split sep cs
    else
      match split sep cs with
      | [] => [[c]]
      | w :: ws => (c :: w) :: ws

/-- Whether `w` starts the string `s`. -/
def startsWith : Str → Str → Bool
  | _, [] => true
  | [], _ :: _ => false
  | c :: cs, d :: ds => c == d && startsWith cs ds

/-- The method `s.includes(w)`: `w` occurs in `s` as a contiguous substring. -/
def includes : Str → Str → Bool
  | [], w => startsWith [] w
  | c :: cs, w => startsWith (c :: cs) w || includes cs w

/-- Truthiness of a value that is a string, `null` or `undefined`. -/
def truthy : Option Str → Bool
  | some (_ :: _) => true
  | _ => false

/-- A string-or-`undefined` value as a template literal prints it. -/
def render : Option Str → Str
  | some s => s
  | none => "undefined".toList

/-- The runtime's case conversions, with the facts about them that are used. -/
structure CaseMapping where
  /-- The method `String.prototype.toLowerCase`. -/
  toLowerCase : Str → Str
  /-- The method `String.prototype.toUpperCase`. -/
  toUpperCase : Str → Str
  /-- Lower-casing leaves a run of lower-case ASCII letters and spaces in place. -/
  lower_keeps : ∀ s w : Str, (∀ c ∈ w, c.isLower = true ∨ c = ' ') →
    w <:+: s → w <:+: toLowerCase s
  /-- White space has no case. -/
  lower_blank : ∀ s : Str, (∀ c ∈ s, isWhiteSpace c = true) → toLowerCase s = s
  /-- Upper-casing a non-empty string gives a non-empty string. -/
  upper_ne : ∀ s : Str, s ≠ [] → toUpperCase s ≠ []

/-! ## Data -/

/-- An `Error` object; only its `message` is read. -/
structure JSError where
  message : Str
deriving DecidableEq, Repr

/-- A number, as the program observes it. -/
structure JSNumber where
  /-- Whether the number is truthy (neither `0` nor `NaN`). -/
  truthy : Bool
  /-- The string `toFixed(2)` returns. -/
  toFixed2 : Str
deriving DecidableEq, Repr

/-- The fields of a Yahoo Finance quote that are read. -/
structure QuoteResult where
  regularMarketPrice : Option JSNumber
  regularMarketChange : Option JSNumber
  regularMarketChangePercent : Option JSNumber
deriving DecidableEq, Repr

/-- How `await yahooFinance.quote(symbol)` ends: it throws, or it gives a result
that may be `null`/`undefined`. -/
inductive QuoteOutcome where
  | raises (e : JSError)
  | resolves (result : Option QuoteResult)
deriving DecidableEq, Repr

/-- The object `getStockPrice` returns; a field that is not set is `undefined`. -/
structure StockData where
  error : Option Str
  symbol : Option Str
  price : Option Str
  change : Option Str
  percentChange : Option Str
  timestamp : Option Str
deriving DecidableEq, Repr

/-- The field `req.body.message` of a parsed JSON body: `undefined`, `null` or a string
(the request type of the route; a body with a message of another JSON type is not
modelled). -/
inductive Message where
  | absent
  | null
  | str (s : Str)
deriving DecidableEq, Repr

/-- A call to a remote service. -/
inductive Call where
  /-- The call `yahooFinance.quote(symbol)`. -/
  | quote (symbol : Str)
  /-- The call `chat.sendMessage(message)` on a chat started with the given history and
  `maxOutputTokens`. -/
  | sendMessage (history : List Str) (maxOutputTokens : Nat) (message : Str)
deriving DecidableEq, Repr

/-- The JSON body of a response. -/
inductive Body where
  | reply (reply : Str)
  | failure (error : Str) (details : Str)
deriving DecidableEq, Repr

/-- An HTTP response. -/
structure Response where
  status : Nat
  body : Body
deriving DecidableEq, Repr

/-- What the handler reads from outside. -/
structure Env where
  /-- The object `knowledge`, as the pairs `for (const key in knowledge)` visits, in
  that order, each key with `knowledge[key]`. The knowledge file maps strings to
  strings. -/
  knowledge : List (Str × Str)
  /-- The remote quote service. -/
  quote : Str → QuoteOutcome
  /-- The remote completion: `chat.sendMessage(m)` followed by `result.response.text()`. -/
  sendMessage : Str → Except JSError Str
  /-- The value of `new Date().toISOString()`. -/
  now : Str

/-! ## The program -/

/-- The `try` block of `getStockPrice`, after `yahooFinance.quote` has ended. -/
def getStockPriceTry (K : CaseMapping) (now symbol : Str) :
    QuoteOutcome → Except JSError StockData
  | .raises e => .error e
  | .resolves none => .error ⟨"Invalid stock data received".toList⟩
  | .resolves (some result) =>
    match result.regularMarketPrice with
    | none => .error ⟨"Invalid stock data received".toList⟩
    | some regularMarketPrice =>
      if !regularMarketPrice.truthy then .error ⟨"Invalid stock data received".toList⟩
      else
        let changeFixed := result.regularMarketChange.map JSNumber.toFixed2
        let percent :=
          match result.regularMarketChangePercent with
          | some p => if p.truthy then p.toFixed2 else "0.00".toList
          | none => "0.00".toList
        .ok { error := none
              symbol := some (K.toUpperCase symbol)
              price := some ("$".toList ++ regularMarketPrice.toFixed2)
              change := some (if truthy changeFixed then render changeFixed else "0".toList)
              percentChange := some (percent ++ "%".toList)
              timestamp := some now }

/-- The function `getStockPrice(symbol)`: its outcome (a value, or an exception) and the
remote calls it made. -/
def getStockPrice (K : CaseMapping) (env : Env) (symbol : Str) :
    Except JSError StockData × List Call :=
  match getStockPriceTry K env.now symbol (env.quote symbol) with
  | .ok stockData => (.ok stockData, [Call.quote symbol])
  | .error _ =>
    (.ok { error := some "Stock data unavailable or invalid symbol".toList
           symbol := none, price := none, change := none, percentChange := none
           timestamp := none },
     [Call.quote symbol])

/-- Whether every word of `key` occurs in `userMessage`. -/
def keyMatches (K : CaseMapping) (userMessage key : Str) : Bool :=
  (split ' ' (K.toLowerCase key)).all fun word => includes userMessage word

/-- The knowledge loop: the value of `foundAnswer` after it (`none` is `null`). -/
def foundAnswer (K : CaseMapping) (userMessage : Str) : List (Str × Str) → Option Str
  | [] => none
  | (key, answer) :: rest =>
    if keyMatches K userMessage key then some answer
    else foundAnswer K userMessage rest

/-- The constant `userMessage`. -/
def userMessage (K : CaseMapping) (message : Str) : Str :=
  trim (K.toLowerCase message)

/-- The `try` block of the `/api/chat` handler: the response sent or the exception thrown,
and the remote calls made. -/
def chatTry (K : CaseMapping) (env : Env) : Message → Except JSError Response × List Call
  | .absent => (.error ⟨"No message provided".toList⟩, [])
  | .null => (.error ⟨"No message provided".toList⟩, [])
  | .str [] => (.error ⟨"No message provided".toList⟩, [])
  | .str (m :: ms) =>
    let um := userMessage K (m :: ms)
    let found := foundAnswer K um env.knowledge
    if truthy found then (.ok ⟨200, .reply (render found)⟩, [])
    else if includes um "stock price of".toList then
      let words := split ' ' um
      match words.getLast? with
      | none =>
        (.error ⟨"Cannot read properties of undefined (reading 'toUpperCase')".toList⟩, [])
      | some word =>
        let stockSymbol := K.toUpperCase word
        match getStockPrice K env stockSymbol with
        | (.error e, calls) => (.error e, calls)
        | (.ok stockData, calls) =>
          if truthy stockData.error then
            (.ok ⟨200, .reply ("⚠️ ".toList ++ render stockData.error)⟩, calls)
          else
            (.ok ⟨200, .reply ("🚀 ".toList ++ render stockData.symbol ++ ": ".toList ++
                render stockData.price ++ " (Change: ".toList ++ render stockData.change ++
                ", ".toList ++ render stockData.percentChange ++ "%)".toList)⟩, calls)
    else
      match env.sendMessage (m :: ms) with
      | .ok response => (.ok ⟨200, .reply response⟩, [Call.sendMessage [] 2048 (m :: ms)])
      | .error e => (.error e, [Call.sendMessage [] 2048 (m :: ms)])

/-- The `/api/chat` handler: the response and the remote calls made. -/
def chatHandler (K : CaseMapping) (env : Env) (message : Message) : Response × List Call :=
  match chatTry K env message with
  | (.ok response, calls) => (response, calls)
  | (.error e, calls) =>
    (⟨500, .failure "Failed to get response from AI".toList e.message⟩, calls)

/-! ## A concrete runtime and sample environments -/

/-- Case conversion on ASCII letters. -/
def asciiLower (s : Str) : Str := s.map Char.toLower

/-- Case conversion on ASCII letters. -/
def asciiUpper (s : Str) : Str := s.map Char.toUpper

/-- Case conversion on ASCII letters, as a runtime. -/
def asciiCase : CaseMapping where
  toLowerCase := asciiLower
  toUpperCase := asciiUpper
  lower_keeps := by
    intro s w hw hinf
    have hfix : ∀ c ∈ w, c.toLower = c := by
      intro c hc
      rcases hw c hc with h | h
      · have hcase : ¬ (65 ≤ c.toNat ∧ c.toNat ≤ 90) := by
          simp only [Char.isLower, ge_iff_le, Bool.and_eq_true, decide_eq_true_eq] at h
          have h1 : (97 : UInt32).toNat ≤ c.val.toNat := UInt32.le_def.mp h.1
          have h2 : c.toNat = c.val.toNat := rfl
          have h3 : (97 : UInt32).toNat = 97 := rfl
          omega
        unfold Char.toLower
        simp only [ge_iff_le]
        rw [if_neg hcase]
      · subst h
        rfl
    have h1 : asciiLower w = w := by
      unfold asciiLower
      conv_rhs => rw [← List.map_id w]
      exact List.map_congr_left hfix
    rw [← h1]
    exact List.IsInfix.map Char.toLower hinf
  lower_blank := by
    intro s hs
    have hfix : ∀ c ∈ s, c.toLower = c := by
      intro c hc
      have h := hs c hc
      have hcase : ¬ (65 ≤ c.toNat ∧ c.toNat ≤ 90) := by
        simp only [isWhiteSpace, Bool.or_eq_true, beq_iff_eq, Bool.and_eq_true,
          decide_eq_true_eq] at h
        omega
      unfold Char.toLower
      simp only [ge_iff_le]
      rw [if_neg hcase]
    unfold asciiLower
    conv_rhs => rw [← List.map_id s]
    exact List.map_congr_left hfix
  upper_ne := by
    intro s hs
    unfold asciiUpper
    simpa using hs

/-- An environment whose remote services answer every call the same way. -/
def constEnv (knowledge : List (Str × Str)) (quote : QuoteOutcome)
    (completion : Except JSError Str) : Env where
  knowledge := knowledge
  quote := fun _ => quote
  sendMessage := fun _ => completion
  now := "2024-01-01T00:00:00.000Z".toList

/-- A quote service that is down. -/
def quoteDown : QuoteOutcome := .raises ⟨"fetch failed".toList⟩

/-- The quote of scenario 2: price 150.25, change 1.10, percent change 0.74. -/
def quoteAAPL : QuoteOutcome :=
  .resolves (some
    { regularMarketPrice := some ⟨true, "150.25".toList⟩
      regularMarketChange := some ⟨true, "1.10".toList⟩
      regularMarketChangePercent := some ⟨true, "0.74".toList⟩ })

/-- A completion service that is down. -/
def completionDown : Except JSError Str := .error ⟨"fetch failed".toList⟩

/-! ## Facts about the string primitives -/

theorem startsWith_iff (s w : Str) : startsWith s w = true ↔ w <+: s := by
  induction w generalizing s with
  | nil => simp [startsWith]
  | cons d ds ih =>
    cases s with
    | nil => simp [startsWith]
    | cons c cs =>
      simp only [startsWith, Bool.and_eq_true, beq_iff_eq, ih, List.cons_prefix_cons]
      constructor
      · rintro ⟨h, h2⟩
        exact ⟨h.symm, h2⟩
      · rintro ⟨h, h2⟩
        exact ⟨h.symm, h2⟩

theorem includes_iff (s w : Str) : includes s w = true ↔ w <:+: s := by
  induction s with
  | nil =>
    simp only [includes, startsWith_iff, List.prefix_nil, List.infix_nil]
  | cons c cs ih =>
    simp only [includes, Bool.or_eq_true, startsWith_iff, ih, List.infix_cons_iff]

theorem split_ne_nil (sep : Char) (s : Str) : split sep s ≠ [] := by
  cases s with
  | nil => simp [split]
  | cons c cs =>
    simp only [split]
    split
    · simp
    · split <;> simp

/-- Either `s` has no separator and is the only piece, or there are at least two
pieces and the last one follows the last separator. -/
theorem split_cases (sep : Char) (s : Str) :
    (split sep s = [s] ∧ sep ∉ s) ∨
    (∃ w v vs t, split sep s = w :: v :: vs ∧ (v :: vs).getLast? = some t ∧ sep ∉ t ∧
      (sep :: t) <:+ s) := by
  induction s with
  | nil => exact Or.inl ⟨rfl, by simp⟩
  | cons c cs ih =>
    by_cases hc : c = sep
    · right
      rcases ih with ⟨h1, h2⟩ | ⟨w, v, vs, t, h1, h2, h3, h4⟩
      · refine ⟨[], cs, [], cs, ?_, by simp, h2, ?_⟩
        · simp [split, hc, h1]
        · rw [hc]
      · refine ⟨[], w, v :: vs, t, ?_, ?_, h3, ?_⟩
        · simp [split, hc, h1]
        · rw [List.getLast?_cons_cons]
          exact h2
        · exact List.IsSuffix.trans h4 (List.suffix_cons c cs)
    · rcases ih with ⟨h1, h2⟩ | ⟨w, v, vs, t, h1, h2, h3, h4⟩
      · left
        refine ⟨by simp [split, hc, h1], ?_⟩
        simp only [List.mem_cons, not_or]
        exact ⟨fun h => hc h.symm, h2⟩
      · right
        refine ⟨c :: w, v, vs, t, by simp [split, hc, h1], h2, h3, ?_⟩
        exact List.IsSuffix.trans h4 (List.suffix_cons c cs)

/-- The last piece of `split sep s` is the longest suffix of `s` without `sep`. -/
theorem split_getLast (sep : Char) (s : Str) :
    ∃ t : Str, (split sep s).getLast? = some t ∧ t <:+ s ∧ sep ∉ t ∧
      (t = s ∨ (sep :: t) <:+ s) := by
  rcases split_cases sep s with ⟨h1, h2⟩ | ⟨w, v, vs, t, h1, h2, h3, h4⟩
  · exact ⟨s, by simp [h1], List.suffix_refl _, h2, Or.inl rfl⟩
  · refine ⟨t, ?_, ?_, h3, Or.inr h4⟩
    · rw [h1, List.getLast?_cons_cons]
      exact h2
    · exact List.IsSuffix.trans (List.suffix_cons sep t) h4

theorem dropWhile_append_keep (p : Char → Bool) (pre rest : Str) (x : Char)
    (hx : p x = false) :
    (pre ++ x :: rest).dropWhile p = pre.dropWhile p ++ x :: rest := by
  induction pre with
  | nil => simp [List.dropWhile, hx]
  | cons a as ih =>
    by_cases ha : p a = true
    · simp [List.dropWhile, ha, ih]
    · simp [List.dropWhile, ha]

/-- Trimming keeps an occurrence of a string that neither starts nor ends with white space. -/
theorem trim_keeps (s w : Str) (a b : Char) (mid : Str) (hw : w = a :: mid)
    (hw2 : ∃ ini, w = ini ++ [b]) (ha : isWhiteSpace a = false)
    (hb : isWhiteSpace b = false) (h : w <:+: s) : w <:+: trim s := by
  obtain ⟨pre, post, rfl⟩ := h
  obtain ⟨ini, hini⟩ := hw2
  have h1 : (pre ++ w ++ post).dropWhile isWhiteSpace =
      pre.dropWhile isWhiteSpace ++ w ++ post := by
    rw [hw, List.append_assoc, List.cons_append, dropWhile_append_keep _ _ _ _ ha]
    simp
  have h2 : (pre.dropWhile isWhiteSpace ++ w ++ post).reverse =
      post.reverse ++ b :: (ini.reverse ++ (pre.dropWhile isWhiteSpace).reverse) := by
    rw [hini]
    simp
  unfold trim
  rw [h1, h2, dropWhile_append_keep _ _ _ _ hb]
  refine ⟨pre.dropWhile isWhiteSpace, (post.reverse.dropWhile isWhiteSpace).reverse, ?_⟩
  rw [hini]
  simp

/-- A trimmed string does not end with white space. -/
theorem trim_getLast (s : Str) (c : Char) (h : (trim s).getLast? = some c) :
    isWhiteSpace c = false := by
  unfold trim at h
  rw [List.getLast?_reverse] at h
  have := List.head?_dropWhile_not isWhiteSpace (s.dropWhile isWhiteSpace).reverse
  rw [h] at this
  simpa using this

/-- A string of white space trims to the empty string. -/
theorem trim_blank (s : Str) (h : ∀ c ∈ s, isWhiteSpace c = true) : trim s = [] := by
  unfold trim
  have : s.dropWhile isWhiteSpace = [] := List.dropWhile_eq_nil_iff.mpr h
  rw [this]
  rfl

/-! ## Facts about the knowledge loop and the branches of the handler -/

theorem keyMatches_iff (K : CaseMapping) (um key : Str) :
    keyMatches K um key = true ↔ ∀ word ∈ split ' ' (K.toLowerCase key), word <:+: um := by
  simp only [keyMatches, List.all_eq_true, includes_iff]

theorem foundAnswer_eq_none_iff (K : CaseMapping) (um : Str) (kn : List (Str × Str)) :
    foundAnswer K um kn = none ↔ ∀ e ∈ kn, keyMatches K um e.1 = false := by
  induction kn with
  | nil => simp [foundAnswer]
  | cons e rest ih =>
    obtain ⟨key, answer⟩ := e
    by_cases h : keyMatches K um key = true
    · simp [foundAnswer, h]
    · simp only [Bool.not_eq_true] at h
      simp [foundAnswer, h, ih]

theorem foundAnswer_first (K : CaseMapping) (um : Str) (pre post : List (Str × Str))
    (key answer : Str) (hpre : ∀ e ∈ pre, keyMatches K um e.1 = false)
    (hkey : keyMatches K um key = true) :
    foundAnswer K um (pre ++ (key, answer) :: post) = some answer := by
  induction pre with
  | nil => simp [foundAnswer, hkey]
  | cons e rest ih =>
    obtain ⟨k, a⟩ := e
    have hk : keyMatches K um k = false := hpre (k, a) (by simp)
    have hrest : ∀ e ∈ rest, keyMatches K um e.1 = false :=
      fun e he => hpre e (by simp [he])
    simp [foundAnswer, hk, ih hrest]

theorem keyMatches_false_of (K : CaseMapping) (um key : Str)
    (h : ¬ ∀ word ∈ split ' ' (K.toLowerCase key), word <:+: um) :
    keyMatches K um key = false := by
  rw [← Bool.not_eq_true, keyMatches_iff]
  exact h

/-- The knowledge branch. -/
theorem chatTry_knowledge (K : CaseMapping) (env : Env) (m : Str) (hm : m ≠ [])
    (h : truthy (foundAnswer K (userMessage K m) env.knowledge) = true) :
    chatTry K env (.str m) =
      (.ok ⟨200, .reply (render (foundAnswer K (userMessage K m) env.knowledge))⟩, []) := by
  cases m with
  | nil => exact absurd rfl hm
  | cons c cs => simp [chatTry, h]

/-- The stock branch. -/
theorem chatTry_stock (K : CaseMapping) (env : Env) (m word : Str) (hm : m ≠ [])
    (h : truthy (foundAnswer K (userMessage K m) env.knowledge) = false)
    (hs : includes (userMessage K m) "stock price of".toList = true)
    (hw : (split ' ' (userMessage K m)).getLast? = some word) :
    chatTry K env (.str m) =
      match getStockPrice K env (K.toUpperCase word) with
      | (.error e, calls) => (.error e, calls)
      | (.ok stockData, calls) =>
        if truthy stockData.error then
          (.ok ⟨200, .reply ("⚠️ ".toList ++ render stockData.error)⟩, calls)
        else
          (.ok ⟨200, .reply ("🚀 ".toList ++ render stockData.symbol ++ ": ".toList ++
              render stockData.price ++ " (Change: ".toList ++ render stockData.change ++
              ", ".toList ++ render stockData.percentChange ++ "%)".toList)⟩, calls) := by
  cases m with
  | nil => exact absurd rfl hm
  | cons c cs =>
    simp only [chatTry, h, hs, hw, if_true, Bool.false_eq_true, if_false]

/-- The completion branch. -/
theorem chatTry_completion (K : CaseMapping) (env : Env) (m : Str) (hm : m ≠ [])
    (h : truthy (foundAnswer K (userMessage K m) env.knowledge) = false)
    (hs : includes (userMessage K m) "stock price of".toList = false) :
    chatTry K env (.str m) =
      match env.sendMessage m with
      | .ok response => (.ok ⟨200, .reply response⟩, [Call.sendMessage [] 2048 m])
      | .error e => (.error e, [Call.sendMessage [] 2048 m]) := by
  cases m with
  | nil => exact absurd rfl hm
  | cons c cs =>
    simp only [chatTry, h, hs, Bool.false_eq_true, if_false]

/-- The function `getStockPrice` returns a value and makes one call. -/
theorem getStockPrice_ok (K : CaseMapping) (env : Env) (symbol : Str) :
    ∃ d, getStockPrice K env symbol = (.ok d, [Call.quote symbol]) := by
  unfold getStockPrice
  split
  · exact ⟨_, rfl⟩
  · exact ⟨_, rfl⟩

/-- On the stock branch the handler sends a reply with status 200 after one quote call. -/
theorem chatHandler_stock (K : CaseMapping) (env : Env) (m word : Str) (hm : m ≠ [])
    (h : truthy (foundAnswer K (userMessage K m) env.knowledge) = false)
    (hs : includes (userMessage K m) "stock price of".toList = true)
    (hw : (split ' ' (userMessage K m)).getLast? = some word) :
    ∃ r, chatHandler K env (.str m) = (⟨200, .reply r⟩, [Call.quote (K.toUpperCase word)]) := by
  obtain ⟨d, hd⟩ := getStockPrice_ok K env (K.toUpperCase word)
  unfold chatHandler
  rw [chatTry_stock K env m word hm h hs hw, hd]
  cases he : truthy d.error
  · simp only [he, Bool.false_eq_true, if_false]
    exact ⟨_, rfl⟩
  · simp only [he, if_true]
    exact ⟨_, rfl⟩

/-- The phrase survives normalisation. -/
theorem userMessage_keeps_phrase (K : CaseMapping) (m : Str)
    (h : "stock price of".toList <:+: m) :
    "stock price of".toList <:+: userMessage K m := by
  unfold userMessage
  refine trim_keeps (K.toLowerCase m) "stock price of".toList 's' 'f'
    "tock price of".toList rfl ⟨"stock price o".toList, rfl⟩ (by decide) (by decide) ?_
  exact K.lower_keeps m _ (by decide) h

/-- The last word of a normalised message that is not empty is not empty. -/
theorem last_word_ne_nil (K : CaseMapping) (m : Str) (hne : userMessage K m ≠ []) :
    ∃ word, (split ' ' (userMessage K m)).getLast? = some word ∧ word ≠ [] ∧
      word <:+ userMessage K m ∧ ' ' ∉ word ∧
      (word = userMessage K m ∨ (' ' :: word) <:+ userMessage K m) := by
  obtain ⟨t, ht, hsuf, hsep, hmax⟩ := split_getLast ' ' (userMessage K m)
  refine ⟨t, ht, ?_, hsuf, hsep, hmax⟩
  rintro rfl
  rcases hmax with h | h
  · exact hne h.symm
  · obtain ⟨ini, hini⟩ := h
    have hl : (userMessage K m).getLast? = some ' ' := by
      rw [← hini]
      simp
    have := trim_getLast (K.toLowerCase m) ' ' hl
    exact absurd this (by decide)

/-- On the knowledge branch the handler replies with the answer found and calls nothing. -/
theorem chatHandler_knowledge (K : CaseMapping) (env : Env) (m : Str) (hm : m ≠ [])
    (h : truthy (foundAnswer K (userMessage K m) env.knowledge) = true) :
    chatHandler K env (.str m) =
      (⟨200, .reply (render (foundAnswer K (userMessage K m) env.knowledge))⟩, []) := by
  unfold chatHandler
  rw [chatTry_knowledge K env m hm h]

/-- On the completion branch the handler makes one call and relays its outcome. -/
theorem chatHandler_completion (K : CaseMapping) (env : Env) (m : Str) (hm : m ≠ [])
    (h : truthy (foundAnswer K (userMessage K m) env.knowledge) = false)
    (hs : includes (userMessage K m) "stock price of".toList = false) :
    chatHandler K env (.str m) =
      match env.sendMessage m with
      | .ok response => (⟨200, .reply response⟩, [Call.sendMessage [] 2048 m])
      | .error e =>
        (⟨500, .failure "Failed to get response from AI".toList e.message⟩,
          [Call.sendMessage [] 2048 m]) := by
  unfold chatHandler
  rw [chatTry_completion K env m hm h hs]
  cases env.sendMessage m <;> rfl

/-! ## The knowledge branch -/

/-- C1, as stated, fails: with the store `{"hi": "A", "hi there": "B"}` and the message
`"hi there"`, every token of the second entry's trigger phrase occurs in the normalised
message, yet the reply is `"A"`, the answer of the entry before it. -/
theorem knowledge_reply_not_every_match :
    ("hi there".toList, "B".toList) ∈
        (constEnv [("hi".toList, "A".toList), ("hi there".toList, "B".toList)]
          quoteDown completionDown).knowledge ∧
      (∀ word ∈ split ' ' (asciiCase.toLowerCase "hi there".toList),
        word <:+: userMessage asciiCase "hi there".toList) ∧
      (chatHandler asciiCase
        (constEnv [("hi".toList, "A".toList), ("hi there".toList, "B".toList)]
          quoteDown completionDown)
        (.str "hi there".toList)).1 = ⟨200, .reply "A".toList⟩ ∧
      (⟨200, .reply "A".toList⟩ : Response) ≠ ⟨200, .reply "B".toList⟩ := by
  refine ⟨by decide, ?_, by decide, by decide⟩
  exact (keyMatches_iff asciiCase _ _).mp (by decide)

/-- C1 (amended): for every knowledge store, every entry of it with a non-empty answer and
every non-empty message such that each token of the entry's lower-cased trigger phrase
is a substring of the lower-cased, trimmed message, while no entry before it in the
store's order has all its tokens in that message, the handler replies with status 200
and the entry's answer, and calls no remote service. -/
theorem knowledge_reply_of_first_match (K : CaseMapping) (env : Env)
    (pre post : List (Str × Str)) (key answer m : Str)
    (hstore : env.knowledge = pre ++ (key, answer) :: post)
    (hm : m ≠ []) (hanswer : answer ≠ [])
    (hkey : ∀ word ∈ split ' ' (K.toLowerCase key), word <:+: userMessage K m)
    (hpre : ∀ e ∈ pre,
      ¬ ∀ word ∈ split ' ' (K.toLowerCase e.1), word <:+: userMessage K m) :
    chatHandler K env (.str m) = (⟨200, .reply answer⟩, []) := by
  have hfound : foundAnswer K (userMessage K m) env.knowledge = some answer := by
    rw [hstore]
    exact foundAnswer_first K _ pre post key answer
      (fun e he => keyMatches_false_of K _ _ (hpre e he))
      ((keyMatches_iff K _ _).mpr hkey)
  have htruthy : truthy (foundAnswer K (userMessage K m) env.knowledge) = true := by
    rw [hfound]
    cases answer with
    | nil => exact absurd rfl hanswer
    | cons c cs => rfl
  unfold chatHandler
  rw [chatTry_knowledge K env m hm htruthy, hfound]
  rfl

/-- Witness for C1, scenario 1: the store `{"what is your name": "I am a chatbot"}` and the message
`"Hey, what is your name?"` give the reply `"I am a chatbot"`. -/
theorem knowledge_reply_of_first_match_witness :
    chatHandler asciiCase
      (constEnv [("what is your name".toList, "I am a chatbot".toList)]
        quoteDown completionDown)
      (.str "Hey, what is your name?".toList) =
      (⟨200, .reply "I am a chatbot".toList⟩, []) :=
  knowledge_reply_of_first_match asciiCase
    (constEnv [("what is your name".toList, "I am a chatbot".toList)]
      quoteDown completionDown)
    [] [] "what is your name".toList "I am a chatbot".toList
    "Hey, what is your name?".toList rfl (by decide) (by decide)
    ((keyMatches_iff asciiCase _ _).mp (by decide)) (by simp)

/-- C3: the knowledge loop returns the answer of the first entry, in the store's order,
all of whose lower-cased space-separated tokens are substrings of the normalised
message, whatever entries follow it; it returns `null` exactly when no entry has all
its tokens in the message; and a token matches anywhere inside a word (`"hi"` matches
`"this"`). -/
theorem foundAnswer_first_match (K : CaseMapping) (um : Str)
    (pre post : List (Str × Str)) (key answer : Str)
    (hpre : ∀ e ∈ pre, ¬ ∀ word ∈ split ' ' (K.toLowerCase e.1), word <:+: um)
    (hkey : ∀ word ∈ split ' ' (K.toLowerCase key), word <:+: um) :
    foundAnswer K um (pre ++ (key, answer) :: post) = some answer ∧
      (∀ knowledge : List (Str × Str), foundAnswer K um knowledge = none ↔
        ∀ e ∈ knowledge, ¬ ∀ word ∈ split ' ' (K.toLowerCase e.1), word <:+: um) ∧
      foundAnswer asciiCase "this".toList [("hi".toList, answer)] = some answer := by
  refine ⟨?_, ?_, ?_⟩
  · exact foundAnswer_first K um pre post key answer
      (fun e he => keyMatches_false_of K _ _ (hpre e he))
      ((keyMatches_iff K _ _).mpr hkey)
  · intro knowledge
    rw [foundAnswer_eq_none_iff]
    constructor
    · intro h e he hall
      have := (keyMatches_iff K um e.1).mpr hall
      rw [h e he] at this
      exact absurd this (by decide)
    · intro h e he
      exact keyMatches_false_of K um e.1 (h e he)
  · have : keyMatches asciiCase "this".toList "hi".toList = true := by decide
    simp only [foundAnswer, this, if_true]

/-- Witness for C3: the loop stops at `"hi"` for the message `"hi there"`; the entry
`"hi there"` after it is not reached. -/
theorem foundAnswer_first_match_witness :
    foundAnswer asciiCase "hi there".toList
        ([("bye".toList, "Z".toList)] ++ ("hi".toList, "A".toList) ::
          [("hi there".toList, "B".toList)]) = some "A".toList ∧
      foundAnswer asciiCase "this".toList [("hi".toList, "A".toList)] = some "A".toList :=
  have h := foundAnswer_first_match asciiCase "hi there".toList
    [("bye".toList, "Z".toList)] [("hi there".toList, "B".toList)]
    "hi".toList "A".toList
    (by
      intro e he
      simp only [List.mem_singleton] at he
      subst he
      rw [← keyMatches_iff]
      decide)
    ((keyMatches_iff asciiCase _ _).mp (by decide))
  ⟨h.1, h.2.2⟩

/-! ## Input validation -/

/-- C6: for a message that is the empty string, `null` or absent, whatever the knowledge
store and the remote services, the response has status 500 and the body
`{error: "Failed to get response from AI", details: "No message provided"}`, and no
remote call is made. -/
theorem missing_message_rejected (K : CaseMapping) (env : Env) :
    chatHandler K env (.str []) =
        (⟨500, .failure "Failed to get response from AI".toList
          "No message provided".toList⟩, []) ∧
      chatHandler K env .null =
        (⟨500, .failure "Failed to get response from AI".toList
          "No message provided".toList⟩, []) ∧
      chatHandler K env .absent =
        (⟨500, .failure "Failed to get response from AI".toList
          "No message provided".toList⟩, []) :=
  ⟨rfl, rfl, rfl⟩

/-- C5, as stated, fails: the message `"   "` consists of white space only and trims to
the empty string, yet it passes the check `!req.body.message`; with an empty knowledge
store it is sent to the completion service and the reply has status 200, unlike the
response to the empty message. -/
theorem blank_message_reaches_completion :
    (∀ c ∈ "   ".toList, isWhiteSpace c = true) ∧
      trim "   ".toList = [] ∧
      chatHandler asciiCase (constEnv [] quoteDown (.ok "Hello!".toList))
          (.str "   ".toList) =
        (⟨200, .reply "Hello!".toList⟩, [Call.sendMessage [] 2048 "   ".toList]) ∧
      chatHandler asciiCase (constEnv [] quoteDown (.ok "Hello!".toList))
          (.str "   ".toList) ≠
        chatHandler asciiCase (constEnv [] quoteDown (.ok "Hello!".toList)) (.str []) := by
  decide

/-- C5 (amended): the message that is empty before trimming is rejected with the input
error and no remote call. A non-empty message of white space only is not rejected: its
normalised form is the empty string, the quote service is not called, and the handler
either replies with status 200 and the non-empty answer the knowledge loop finds for the
empty normalised message, or sends the message verbatim to the completion service, once,
and relays its outcome. -/
theorem blank_message_not_rejected (K : CaseMapping) (env : Env) (m : Str) (hm : m ≠ [])
    (hws : ∀ c ∈ m, isWhiteSpace c = true) :
    chatHandler K env (.str []) =
        (⟨500, .failure "Failed to get response from AI".toList
          "No message provided".toList⟩, []) ∧
      userMessage K m = [] ∧
      chatHandler K env (.str m) =
        if truthy (foundAnswer K [] env.knowledge) then
          (⟨200, .reply (render (foundAnswer K [] env.knowledge))⟩, [])
        else
          match env.sendMessage m with
          | .ok response => (⟨200, .reply response⟩, [Call.sendMessage [] 2048 m])
          | .error e =>
            (⟨500, .failure "Failed to get response from AI".toList e.message⟩,
              [Call.sendMessage [] 2048 m]) := by
  have hum : userMessage K m = [] := by
    unfold userMessage
    rw [K.lower_blank m hws]
    exact trim_blank m hws
  refine ⟨rfl, hum, ?_⟩
  cases hf : truthy (foundAnswer K [] env.knowledge)
  · simp only [Bool.false_eq_true, if_false]
    exact chatHandler_completion K env m hm (by rw [hum]; exact hf) (by rw [hum]; rfl)
  · simp only [if_true]
    rw [chatHandler_knowledge K env m hm (by rw [hum]; exact hf), hum]

/-- Witness for C5: the message `"   "` with an empty knowledge store and a completion
service that answers `"Hello!"`. -/
theorem blank_message_not_rejected_witness :
    userMessage asciiCase "   ".toList = [] ∧
      chatHandler asciiCase (constEnv [] quoteDown (.ok "Hello!".toList))
          (.str "   ".toList) =
        (⟨200, .reply "Hello!".toList⟩, [Call.sendMessage [] 2048 "   ".toList]) :=
  have h := blank_message_not_rejected asciiCase
    (constEnv [] quoteDown (.ok "Hello!".toList)) "   ".toList (by decide) (by decide)
  ⟨h.2.1, h.2.2⟩

/-! ## The stock branch -/

/-- C2, at the failing input: the message `"stock price of AAPL"` with a quote of price
150.25, change 1.10 and percent change 0.74 is answered with two percent signs,
`"🚀 AAPL: $150.25 (Change: 1.10, 0.74%%)"`, not with the reply of scenario 2. -/
theorem stock_reply_double_percent :
    chatHandler asciiCase (constEnv [] quoteAAPL completionDown)
        (.str "stock price of AAPL".toList) =
      (⟨200, .reply "🚀 AAPL: $150.25 (Change: 1.10, 0.74%%)".toList⟩,
        [Call.quote "AAPL".toList]) ∧
      "🚀 AAPL: $150.25 (Change: 1.10, 0.74%%)".toList ≠
        "🚀 AAPL: $150.25 (Change: 1.10, 0.74%)".toList := by
  decide

/-- C4: for every knowledge store, every behaviour of the remote services and every message
that contains `"stock price of"`, the handler makes no call to the completion service: it
replies with status 200, either from the knowledge store with no remote call or after
exactly one quote call, also when that call fails. -/
theorem stock_phrase_never_completes (K : CaseMapping) (env : Env) (m : Str)
    (h : "stock price of".toList <:+: m) :
    (∀ c ∈ (chatHandler K env (.str m)).2,
        ∀ history maxOutputTokens message,
          c ≠ Call.sendMessage history maxOutputTokens message) ∧
      (∃ reply, (chatHandler K env (.str m)).1 = ⟨200, .reply reply⟩) ∧
      ((chatHandler K env (.str m)).2 = [] ∨
        ∃ symbol, (chatHandler K env (.str m)).2 = [Call.quote symbol]) := by
  have hm : m ≠ [] := by
    rintro rfl
    have := List.eq_nil_of_infix_nil h
    exact absurd this (by decide)
  have hum := userMessage_keeps_phrase K m h
  cases hf : truthy (foundAnswer K (userMessage K m) env.knowledge)
  · obtain ⟨word, hword, -⟩ := split_getLast ' ' (userMessage K m)
    obtain ⟨r, hr⟩ := chatHandler_stock K env m word hm hf
      ((includes_iff _ _).mpr hum) hword
    rw [hr]
    refine ⟨?_, ⟨r, rfl⟩, Or.inr ⟨_, rfl⟩⟩
    intro c hc history n message
    simp only [List.mem_singleton] at hc
    subst hc
    exact fun hcontra => Call.noConfusion hcontra
  · rw [chatHandler_knowledge K env m hm hf]
    exact ⟨by simp, ⟨_, rfl⟩, Or.inl rfl⟩

/-- Witness for C4: the message `"stock price of ZZZZ"` with the quote service down: one
quote call, no completion call. -/
theorem stock_phrase_never_completes_witness :
    "stock price of".toList <:+: "stock price of ZZZZ".toList ∧
      (∀ c ∈ (chatHandler asciiCase (constEnv [] quoteDown (.ok "Hello!".toList))
          (.str "stock price of ZZZZ".toList)).2,
        ∀ history maxOutputTokens message,
          c ≠ Call.sendMessage history maxOutputTokens message) :=
  have hin : "stock price of".toList <:+: "stock price of ZZZZ".toList :=
    (includes_iff _ _).mp (by decide)
  ⟨hin, (stock_phrase_never_completes asciiCase
    (constEnv [] quoteDown (.ok "Hello!".toList)) "stock price of ZZZZ".toList hin).1⟩

/-- C7: `getStockPrice` never throws. When the remote quote call fails, that is, it raises,
its result is `null` or `undefined`, or the result has no truthy `regularMarketPrice`,
`getStockPrice` returns `{error: "Stock data unavailable or invalid symbol"}`, and the
handler, on the stock branch, responds with status 200 and the reply
`"⚠️ Stock data unavailable or invalid symbol"`. -/
theorem getStockPrice_never_throws (K : CaseMapping) (env : Env) (symbol : Str) :
    (∃ stockData, (getStockPrice K env symbol).1 = .ok stockData) ∧
      ((env.quote symbol = .resolves none ∨ (∃ e, env.quote symbol = .raises e) ∨
          (∃ result, env.quote symbol = .resolves (some result) ∧
            (result.regularMarketPrice = none ∨
              ∃ price, result.regularMarketPrice = some price ∧ price.truthy = false))) →
        (getStockPrice K env symbol).1 =
          .ok { error := some "Stock data unavailable or invalid symbol".toList
                symbol := none, price := none, change := none, percentChange := none
                timestamp := none } ∧
        ∀ m word : Str, m ≠ [] →
          truthy (foundAnswer K (userMessage K m) env.knowledge) = false →
          "stock price of".toList <:+: userMessage K m →
          (split ' ' (userMessage K m)).getLast? = some word →
          K.toUpperCase word = symbol →
          chatHandler K env (.str m) =
            (⟨200, .reply "⚠️ Stock data unavailable or invalid symbol".toList⟩,
              [Call.quote symbol])) := by
  refine ⟨?_, ?_⟩
  · obtain ⟨d, hd⟩ := getStockPrice_ok K env symbol
    exact ⟨d, by rw [hd]⟩
  · intro hfail
    have htry : ∃ e, getStockPriceTry K env.now symbol (env.quote symbol) = .error e := by
      rcases hfail with h | ⟨e, h⟩ | ⟨result, h, hp | ⟨price, hp, ht⟩⟩
      · rw [h]
        exact ⟨_, rfl⟩
      · rw [h]
        exact ⟨_, rfl⟩
      · rw [h]
        simp only [getStockPriceTry, hp]
        exact ⟨_, rfl⟩
      · rw [h]
        simp only [getStockPriceTry, hp, ht, Bool.not_false, if_true]
        exact ⟨_, rfl⟩
    obtain ⟨e, he⟩ := htry
    have hget : getStockPrice K env symbol =
        (.ok { error := some "Stock data unavailable or invalid symbol".toList
               symbol := none, price := none, change := none, percentChange := none
               timestamp := none }, [Call.quote symbol]) := by
      simp only [getStockPrice, he]
    refine ⟨by rw [hget], ?_⟩
    intro m word hm hfound hphrase hword hsym
    unfold chatHandler
    rw [chatTry_stock K env m word hm hfound ((includes_iff _ _).mpr hphrase) hword,
      hsym, hget]
    rfl

/-- Witness for C7, scenario 3: the message `"stock price of ZZZZ"` with a quote service that raises is
answered with status 200 and `"⚠️ Stock data unavailable or invalid symbol"`. -/
theorem getStockPrice_never_throws_witness :
    (constEnv [] quoteDown completionDown).quote "ZZZZ".toList =
        .raises ⟨"fetch failed".toList⟩ ∧
      chatHandler asciiCase (constEnv [] quoteDown completionDown)
          (.str "stock price of ZZZZ".toList) =
        (⟨200, .reply "⚠️ Stock data unavailable or invalid symbol".toList⟩,
          [Call.quote "ZZZZ".toList]) :=
  ⟨rfl, ((getStockPrice_never_throws asciiCase (constEnv [] quoteDown completionDown)
      "ZZZZ".toList).2 (Or.inr (Or.inl ⟨_, rfl⟩))).2
    "stock price of ZZZZ".toList "zzzz".toList (by decide) (by decide)
    ((includes_iff _ _).mp (by decide)) (by decide) (by decide)⟩

/-- C8, as stated, fails: the message `"stock price of\taapl"` reaches the stock branch and
the symbol passed on is `"OF\tAAPL"`, which contains a tab and is not `"AAPL"`: the
tab does not delimit a token. -/
theorem stock_symbol_not_whitespace_delimited :
    truthy (foundAnswer asciiCase (userMessage asciiCase "stock price of\taapl".toList)
        (constEnv [] quoteAAPL completionDown).knowledge) = false ∧
      includes (userMessage asciiCase "stock price of\taapl".toList)
        "stock price of".toList = true ∧
      (chatHandler asciiCase (constEnv [] quoteAAPL completionDown)
          (.str "stock price of\taapl".toList)).2 = [Call.quote "OF\tAAPL".toList] ∧
      '\t' ∈ "OF\tAAPL".toList ∧ isWhiteSpace '\t' = true ∧
      "OF\tAAPL".toList ≠ "AAPL".toList := by
  decide

/-- C8 (amended): for every message that reaches the stock branch (no knowledge answer, the
normalised message contains `"stock price of"`), exactly one quote call is made and its
symbol is the upper-cased last piece of the normalised message split at single space
characters: the longest suffix of the normalised message that contains no space. Other
white space does not delimit. -/
theorem stock_symbol_last_space_piece (K : CaseMapping) (env : Env) (m : Str) (hm : m ≠ [])
    (hfound : truthy (foundAnswer K (userMessage K m) env.knowledge) = false)
    (hphrase : "stock price of".toList <:+: userMessage K m) :
    ∃ word : Str, word <:+ userMessage K m ∧ ' ' ∉ word ∧
      (word = userMessage K m ∨ (' ' :: word) <:+ userMessage K m) ∧
      (chatHandler K env (.str m)).2 = [Call.quote (K.toUpperCase word)] := by
  obtain ⟨word, hword, hsuf, hsep, hmax⟩ := split_getLast ' ' (userMessage K m)
  obtain ⟨r, hr⟩ := chatHandler_stock K env m word hm hfound
    ((includes_iff _ _).mpr hphrase) hword
  exact ⟨word, hsuf, hsep, hmax, by rw [hr]⟩

/-- Witness for C8: the message `"what is the stock price of tesla"` yields the symbol
`"TESLA"`. -/
theorem stock_symbol_last_space_piece_witness :
    (∃ word : Str, word <:+ userMessage asciiCase "what is the stock price of tesla".toList ∧
      ' ' ∉ word ∧
      (word = userMessage asciiCase "what is the stock price of tesla".toList ∨
        (' ' :: word) <:+ userMessage asciiCase "what is the stock price of tesla".toList) ∧
      (chatHandler asciiCase (constEnv [] quoteAAPL completionDown)
        (.str "what is the stock price of tesla".toList)).2 =
        [Call.quote (asciiCase.toUpperCase word)]) ∧
      (chatHandler asciiCase (constEnv [] quoteAAPL completionDown)
        (.str "what is the stock price of tesla".toList)).2 = [Call.quote "TESLA".toList] :=
  ⟨stock_symbol_last_space_piece asciiCase (constEnv [] quoteAAPL completionDown)
      "what is the stock price of tesla".toList (by decide) (by decide)
      ((includes_iff _ _).mp (by decide)),
    by decide⟩

/-- C10: for every message whose lower-cased, trimmed form contains `"stock price of"`,
splitting that form at single spaces gives a non-empty list, so the index
`words.length - 1` is in bounds, and its last element is a non-empty string; the symbol
of every quote call the handler makes is non-empty. -/
theorem stock_symbol_nonempty (K : CaseMapping) (m : Str)
    (h : "stock price of".toList <:+: userMessage K m) :
    split ' ' (userMessage K m) ≠ [] ∧
      (split ' ' (userMessage K m)).length - 1 < (split ' ' (userMessage K m)).length ∧
      (∃ word, (split ' ' (userMessage K m)).getLast? = some word ∧ word ≠ [] ∧
        K.toUpperCase word ≠ []) ∧
      ∀ (env : Env) (symbol : Str),
        Call.quote symbol ∈ (chatHandler K env (.str m)).2 → symbol ≠ [] := by
  have hne : userMessage K m ≠ [] := by
    intro hnil
    rw [hnil] at h
    exact absurd (List.eq_nil_of_infix_nil h) (by decide)
  have hsplit := split_ne_nil ' ' (userMessage K m)
  obtain ⟨word, hword, hwne, -⟩ := last_word_ne_nil K m hne
  refine ⟨hsplit, ?_, ⟨word, hword, hwne, K.upper_ne word hwne⟩, ?_⟩
  · have := List.length_pos.mpr hsplit
    omega
  · intro env symbol hcall
    by_cases hm : m = []
    · subst hm
      exact absurd hcall (by simp [chatHandler, chatTry])
    · cases hf : truthy (foundAnswer K (userMessage K m) env.knowledge)
      · obtain ⟨r, hr⟩ := chatHandler_stock K env m word hm hf
          ((includes_iff _ _).mpr h) hword
        rw [hr] at hcall
        simp only [List.mem_singleton, Call.quote.injEq] at hcall
        rw [hcall]
        exact K.upper_ne word hwne
      · rw [chatHandler_knowledge K env m hm hf] at hcall
        exact absurd hcall (by simp)

/-- Witness for C10: the message `"Stock price of MSFT  "`, whose last word is `"msft"`;
the symbol passed on is not empty. -/
theorem stock_symbol_nonempty_witness :
    "stock price of".toList <:+: userMessage asciiCase "Stock price of MSFT  ".toList ∧
      (∃ word, (split ' ' (userMessage asciiCase "Stock price of MSFT  ".toList)).getLast? =
          some word ∧ word ≠ [] ∧ asciiCase.toUpperCase word ≠ []) :=
  have hin : "stock price of".toList <:+:
      userMessage asciiCase "Stock price of MSFT  ".toList :=
    (includes_iff _ _).mp (by decide)
  ⟨hin, (stock_symbol_nonempty asciiCase "Stock price of MSFT  ".toList hin).2.2.1⟩

/-! ## The completion branch -/

/-- C9: for every non-empty message with no matching knowledge entry whose normalised form
does not contain `"stock price of"`, the handler makes exactly one remote call, to the
completion service, with the original message, an empty history and `maxOutputTokens`
2048; when the call returns a text the response is status 200 with that text as reply,
and when it fails the response is status 500 with the body
`{error: "Failed to get response from AI", details: e.message}`. -/
theorem completion_fallback (K : CaseMapping) (env : Env) (m : Str) (hm : m ≠ [])
    (hnone : ∀ e ∈ env.knowledge,
      ¬ ∀ word ∈ split ' ' (K.toLowerCase e.1), word <:+: userMessage K m)
    (hphrase : ¬ "stock price of".toList <:+: userMessage K m) :
    (chatHandler K env (.str m)).2 = [Call.sendMessage [] 2048 m] ∧
      (∀ text, env.sendMessage m = .ok text →
        (chatHandler K env (.str m)).1 = ⟨200, .reply text⟩) ∧
      (∀ e, env.sendMessage m = .error e →
        (chatHandler K env (.str m)).1 =
          ⟨500, .failure "Failed to get response from AI".toList e.message⟩) := by
  have hfound : foundAnswer K (userMessage K m) env.knowledge = none :=
    (foundAnswer_eq_none_iff K _ _).mpr
      (fun e he => keyMatches_false_of K _ _ (hnone e he))
  have hinc : includes (userMessage K m) "stock price of".toList = false := by
    rw [← Bool.not_eq_true, includes_iff]
    exact hphrase
  rw [chatHandler_completion K env m hm (by rw [hfound]; rfl) hinc]
  refine ⟨?_, ?_, ?_⟩
  · cases env.sendMessage m <;> rfl
  · intro text ht
    rw [ht]
  · intro e he
    rw [he]

/-- Witness for C9, scenario 4: `"Tell me a joke"` with a completion service that returns
`"Why did..."`. -/
theorem completion_fallback_witness :
    chatHandler asciiCase
        (constEnv [("what is your name".toList, "I am a chatbot".toList)] quoteDown
          (.ok "Why did...".toList))
        (.str "Tell me a joke".toList) =
      (⟨200, .reply "Why did...".toList⟩, [Call.sendMessage [] 2048 "Tell me a joke".toList]) :=
  have h := completion_fallback asciiCase
    (constEnv [("what is your name".toList, "I am a chatbot".toList)] quoteDown
      (.ok "Why did...".toList))
    "Tell me a joke".toList (by decide)
    (by
      intro e he
      have he2 : e = ("what is your name".toList, "I am a chatbot".toList) := by
        simpa [constEnv] using he
      subst he2
      rw [← keyMatches_iff]
      decide)
    (by
      rw [← includes_iff]
      decide)
  Prod.ext (h.2.1 _ rfl) h.1

end Chatbot
